import Mathlib

/-!
Verification model of the `rootmulti` multi-store (`store/rootmulti/store.go`):
a versioned, Merkle-committed collection of named substores.  Pure Go
functions are translated into executable Lean definitions; the receiver
mutation of `*Store` methods is rendered as explicit state passing, where an
error result carries no new state (the Go methods assign to the receiver only
after every error return).  Machine integers are modelled as `Int`/`Nat`;
byte strings as `List Nat`.  External collaborators (the tendermint merkle
and hash packages, the amino codec, the substore engines, `sdkerrors`) are
modelled from the specification, each marked by a doc comment.
-/

/-- Byte strings, one `Nat` per byte. -/
abbrev Bytes := List Nat

/-- Bytes of a string, one entry per character code point. -/
def strBytes (s : String) : Bytes := s.data.map Char.toNat

/-- Inverse direction of `strBytes`, used by the decoder model. -/
def bytesToStr (b : Bytes) : String := String.mk (b.map Char.ofNat)

/-- `strings.HasPrefix` over the character list of a string. -/
def strStartsWith (s p : String) : Bool := p.data.isPrefixOf s.data

/-- `strings.HasSuffix` over the character list of a string. -/
def strEndsWith (s p : String) : Bool := p.data.isSuffixOf s.data

/-- Drop the first `n` characters of a string. -/
def strDrop (s : String) (n : Nat) : String := String.mk (s.data.drop n)

/-! ## Association lists: the model of Go maps and of KV-store contents -/

/-- Lookup in an association list; models reading a Go map or a KV store. -/
def assocGet {κ α : Type} [DecidableEq κ] : List (κ × α) → κ → Option α
  | [], _ => none
  | p :: rest, k => if p.1 = k then some p.2 else assocGet rest k

/-- Overwrite-or-append update; models `m[k] = v` on a Go map and `Set` on a
KV store. -/
def assocSet {κ α : Type} [DecidableEq κ] : List (κ × α) → κ → α → List (κ × α)
  | [], k, v => [(k, v)]
  | p :: rest, k, v => if p.1 = k then (k, v) :: rest else p :: assocSet rest k v

/-! ## Length-prefixed binary encoding

Modelled from the spec: the project's canonical length-prefix binary encoding
(`cdc.MarshalBinaryLengthPrefixed` / `UnmarshalBinaryLengthPrefixed`, whose
implementation lives outside this file's source).  Payloads are base-256
little-endian digit strings preceded by their length. -/

/-- Base-256 little-endian digits of a natural number. -/
def natLE : Nat → List Nat
  | 0 => []
  | n + 1 => ((n + 1) % 256) :: natLE ((n + 1) / 256)
decreasing_by exact Nat.div_lt_self (Nat.succ_pos n) (by decide)

/-- Value of a base-256 little-endian digit string. -/
def leToNat (l : List Nat) : Nat := l.foldr (fun b acc => b + 256 * acc) 0

/-- Length-prefix a raw byte payload. -/
def encodeBytesLP (b : Bytes) : Bytes := b.length :: b

/-- Modelled from the spec: length-prefixed binary encoding of an `int64`
(versions are non-negative in every reachable state). -/
def encodeInt64 (v : Int) : Bytes := encodeBytesLP (natLE (v % ((2 : Int) ^ 64)).toNat)

/-- Read one length-prefixed payload, returning it with the remaining bytes. -/
def readLP : Bytes → Except String (Bytes × Bytes)
  | [] => Except.error "insufficient bytes"
  | n :: rest =>
    if rest.length < n then Except.error "insufficient bytes"
    else Except.ok (rest.take n, rest.drop n)

/-- Modelled from the spec: decoding of a length-prefixed `int64`; fails on
truncated or trailing input exactly as the codec does. -/
def decodeInt64 (b : Bytes) : Except String Int :=
  match readLP b with
  | Except.error e => Except.error e
  | Except.ok (payload, rest) =>
    if rest = [] then Except.ok (Int.ofNat (leToNat payload))
    else Except.error "trailing bytes"

/-! ## The simple Merkle root over a map

Modelled from the spec: `merkle.SimpleHashFromMap` (tendermint, outside this
file's source) computes a deterministic Merkle root over the `(key, value)`
pairs of a map sorted by key, with leaves `H(key || value)`.  The combining
shape over the leaf sequence is a deterministic left-leaning pairing; the
claims depend only on which leaf sequence is fed in. -/

/-- Insert a pair into a key-sorted list of pairs. -/
def insPair (p : String × Bytes) : List (String × Bytes) → List (String × Bytes)
  | [] => [p]
  | q :: rest => if p.1 ≤ q.1 then p :: q :: rest else q :: insPair p rest

/-- Sort an association list by key (insertion sort). -/
def sortPairs (l : List (String × Bytes)) : List (String × Bytes) := l.foldr insPair []

/-- Deterministic combination of a Merkle leaf sequence into a root. -/
def merkleCombine (H : Bytes → Bytes) : List Bytes → Bytes
  | [] => H []
  | [x] => x
  | x :: y :: rest => merkleCombine H (H (x ++ y) :: rest)
termination_by l => l.length

/-- Modelled from the spec: simple Merkle root of a map — sort the pairs by
key, hash each pair into a leaf, combine the leaf sequence. -/
def SimpleHashFromMap (H : Bytes → Bytes) (m : List (String × Bytes)) : Bytes :=
  merkleCombine H ((sortPairs m).map (fun p => H (strBytes p.1 ++ p.2)))

/-! ## Data model -/

/-- Modelled from the spec: the substore variant tag (`types.StoreType`). -/
inductive StoreType : Type
  | multi
  | iavl
  | db
  | transient
deriving DecidableEq

/-- Modelled from the spec: whether a store key is a `KVStoreKey` or a
`TransientStoreKey`. -/
inductive StoreKeyKind : Type
  | kv
  | transient
deriving DecidableEq

/-- Modelled from the spec: a store key is an opaque identity object carrying
a name; keys compare by identity (`id` models the Go pointer), not by name. -/
structure StoreKey : Type where
  id : Nat
  name : String
  kind : StoreKeyKind
deriving DecidableEq

/-- Modelled from the spec: `types.NewKVStoreKey` allocates a fresh key object
for the given name; `id` is the fresh allocation identity. -/
def NewKVStoreKey (id : Nat) (name : String) : StoreKey := ⟨id, name, StoreKeyKind.kv⟩

/-- `types.CommitID`: version and hash of one committed store. -/
structure CommitID : Type where
  version : Int
  hash : Bytes
deriving DecidableEq

/-- `storeCore`: the commit id wrapper inside a `storeInfo`. -/
structure storeCore : Type where
  commitID : CommitID
deriving DecidableEq

/-- `storeInfo`: name and core reference of one substore; the leaf of the
top-level simple Merkle tree. -/
structure storeInfo : Type where
  name : String
  core : storeCore
deriving DecidableEq

/-- `commitInfo`: a commit's version and per-substore store infos. -/
structure commitInfo : Type where
  version : Int
  storeInfos : List storeInfo
deriving DecidableEq

/-- `storeInfo.Hash`: hash of the substore's commit-id hash.  The name is not
written — `SimpleHashFromMap` includes it via the keys. -/
def storeInfo.Hash (H : Bytes → Bytes) (si : storeInfo) : Bytes :=
  H si.core.commitID.hash

/-- `commitInfo.Hash`: build the Go map `name → storeInfo.Hash` from the
store-info list, then take the simple Merkle root of the map. -/
def commitInfo.Hash (H : Bytes → Bytes) (ci : commitInfo) : Bytes :=
  let m := ci.storeInfos.foldl (fun m si => assocSet m si.name (storeInfo.Hash H si)) []
  SimpleHashFromMap H m

/-- `commitInfo.CommitID()`. -/
def commitInfo.commitID (H : Bytes → Bytes) (ci : commitInfo) : CommitID :=
  ⟨ci.version, commitInfo.Hash H ci⟩

/-- Modelled from the spec: a mounted substore as observed through the
`CommitKVStore` contract — variant tag, last commit id, the hash its engine
will report at the next commit, its KV contents, how many times it has been
committed, and whether it supports queries. -/
structure CommitKVStore : Type where
  storeType : StoreType
  lastCommitID : CommitID
  nextHash : Bytes
  contents : List (Bytes × Bytes)
  commitCount : Nat
  queryable : Bool
deriving DecidableEq

/-- Modelled from the spec: `Commit()` of each substore variant.  A versioned
store advances its version and reports the engine hash; the raw adapter is a
no-op returning a zero commit id; a transient store clears itself and returns
a zero commit id. -/
def CommitKVStore.commit (s : CommitKVStore) : CommitKVStore × CommitID :=
  if s.storeType = StoreType.transient then
    ({ s with contents := [], lastCommitID := ⟨0, []⟩, commitCount := s.commitCount + 1 },
      ⟨0, []⟩)
  else if s.storeType = StoreType.db then
    ({ s with commitCount := s.commitCount + 1 }, ⟨0, []⟩)
  else
    let cid : CommitID := ⟨s.lastCommitID.version + 1, s.nextHash⟩
    ({ s with lastCommitID := cid, commitCount := s.commitCount + 1 }, cid)

/-- `storeParams`: mount parameters of one substore. -/
structure storeParams : Type where
  key : StoreKey
  db : Option (List (String × Bytes))
  typ : StoreType
deriving DecidableEq

/-- Modelled from the spec: one rename entry of the upgrade manifest. -/
structure StoreRename : Type where
  oldKey : String
  newKey : String
deriving DecidableEq

/-- Modelled from the spec: the declarative upgrade manifest
(`types.StoreUpgrades`). -/
structure StoreUpgrades : Type where
  renamed : List StoreRename
  deleted : List String
deriving DecidableEq

/-- Modelled from the spec: `upgrades.IsDeleted`, `false` on a nil manifest. -/
def isDeleted (u : Option StoreUpgrades) (name : String) : Bool :=
  match u with
  | none => false
  | some s => s.deleted.contains name

/-- Modelled from the spec: `upgrades.RenamedFrom` returns the old name of a
rename targeting `name`, or the empty string; empty on a nil manifest. -/
def renamedFrom (u : Option StoreUpgrades) (name : String) : String :=
  match u with
  | none => ""
  | some s =>
    match s.renamed.find? (fun r => r.newKey = name) with
    | some r => r.oldKey
    | none => ""

/-- The multi-store backend, an atomic key/value database. -/
abbrev DB := List (String × Bytes)

def dbGet (db : DB) (k : String) : Option Bytes := assocGet db k

/-- A write batch: the ordered sets it will apply. -/
abbrev Batch := List (String × Bytes)

/-- `batch.Write()`: apply every buffered set atomically. -/
def applyBatch (db : DB) (b : Batch) : DB :=
  b.foldl (fun d p => assocSet d p.1 p.2) db

/-- The `rootmulti.Store` state. -/
structure RootStore : Type where
  db : DB
  lastCommitID : CommitID
  storesParams : List (StoreKey × storeParams)
  stores : List (StoreKey × CommitKVStore)
  keysByName : List (String × StoreKey)
  interBlockCache : Option (List (StoreKey × CommitKVStore))
deriving DecidableEq

/-- Outcome of a Go call that can return normally, return an error, or
panic. -/
inductive GoResult (α : Type) : Type
  | ok : α → GoResult α
  | err : String → GoResult α
  | panics : String → GoResult α
deriving DecidableEq

/-! ## The commitInfo codec

Modelled from the spec: length-prefixed binary encoding of a `commitInfo`
record (name, commit-id version, commit-id hash per store info, preceded by
the version and the store-info count). -/

def encodeStoreInfo (si : storeInfo) : Bytes :=
  encodeBytesLP (strBytes si.name) ++ encodeInt64 si.core.commitID.version
    ++ encodeBytesLP si.core.commitID.hash

def encodeCommitInfo (ci : commitInfo) : Bytes :=
  encodeInt64 ci.version ++ ci.storeInfos.length :: (ci.storeInfos.map encodeStoreInfo).flatten

/-- Read a length-prefixed `int64` without requiring the input to end. -/
def readIntLP (b : Bytes) : Except String (Int × Bytes) :=
  match readLP b with
  | Except.error e => Except.error e
  | Except.ok (p, rest) => Except.ok (Int.ofNat (leToNat p), rest)

def readStoreInfo (b : Bytes) : Except String (storeInfo × Bytes) :=
  match readLP b with
  | Except.error e => Except.error e
  | Except.ok (nameB, b1) =>
    match readIntLP b1 with
    | Except.error e => Except.error e
    | Except.ok (ver, b2) =>
      match readLP b2 with
      | Except.error e => Except.error e
      | Except.ok (hash, b3) => Except.ok (⟨bytesToStr nameB, ⟨⟨ver, hash⟩⟩⟩, b3)

def readStoreInfos : Nat → Bytes → Except String (List storeInfo × Bytes)
  | 0, b => Except.ok ([], b)
  | n + 1, b =>
    match readStoreInfo b with
    | Except.error e => Except.error e
    | Except.ok (si, b1) =>
      match readStoreInfos n b1 with
      | Except.error e => Except.error e
      | Except.ok (l, b2) => Except.ok (si :: l, b2)

def decodeCommitInfo (b : Bytes) : Except String commitInfo :=
  match readIntLP b with
  | Except.error e => Except.error e
  | Except.ok (v, b1) =>
    match b1 with
    | [] => Except.error "insufficient bytes"
    | n :: b2 =>
      match readStoreInfos n b2 with
      | Except.error e => Except.error e
      | Except.ok (sis, b3) =>
        if b3 = [] then Except.ok ⟨v, sis⟩ else Except.error "trailing bytes"

/-! ## Persistence of commit metadata -/

def latestVersionKey : String := "s/latest"

/-- The `commitInfoKeyFmt` key `s/<version>`. -/
def commitInfoKey (v : Int) : String := "s/" ++ toString v

/-- `getLatestVersion`: absent pointer means version 0; a decode failure
panics. -/
def getLatestVersion (db : DB) : GoResult Int :=
  match dbGet db latestVersionKey with
  | none => GoResult.ok 0
  | some bz =>
    match decodeInt64 bz with
    | Except.ok v => GoResult.ok v
    | Except.error e => GoResult.panics e

/-- `setLatestVersion`: buffer the latest-version write into the batch. -/
def setLatestVersion (batch : Batch) (version : Int) : Batch :=
  batch ++ [(latestVersionKey, encodeInt64 version)]

/-- `setCommitInfo`: buffer the per-version commit-info write into the
batch. -/
def setCommitInfo (batch : Batch) (version : Int) (cInfo : commitInfo) : Batch :=
  batch ++ [(commitInfoKey version, encodeCommitInfo cInfo)]

/-- `getCommitInfo`: read and decode the commit info at a version. -/
def getCommitInfo (db : DB) (ver : Int) : Except String commitInfo :=
  match dbGet db (commitInfoKey ver) with
  | none => Except.error "failed to get commit info: no data"
  | some bz =>
    match decodeCommitInfo bz with
    | Except.error e => Except.error ("failed to get Store: " ++ e)
    | Except.ok ci => Except.ok ci

/-! ## The commit pipeline -/

/-- `commitStores`: commit every mounted substore; record a `storeInfo` for
each non-transient one, in iteration order.  Returns the assembled
`commitInfo` together with the advanced substores. -/
def commitStores (version : Int) (storeMap : List (StoreKey × CommitKVStore)) :
    commitInfo × List (StoreKey × CommitKVStore) :=
  let committed := storeMap.map (fun p => (p.1, CommitKVStore.commit p.2))
  let storeInfos := committed.filterMap (fun p =>
    if p.2.1.storeType = StoreType.transient then none
    else some ⟨p.1.name, ⟨p.2.2⟩⟩)
  (⟨version, storeInfos⟩, committed.map (fun p => (p.1, p.2.1)))

/-- `Store.Commit`: advance every substore, write the new commit info and the
latest-version pointer in one batch, set and return the new commit id. -/
def Store.Commit (H : Bytes → Bytes) (rs : RootStore) : RootStore × CommitID :=
  let version := rs.lastCommitID.version + 1
  let cistores := commitStores version rs.stores
  let batch := setLatestVersion (setCommitInfo [] version cistores.1) version
  let db2 := applyBatch rs.db batch
  let commitID : CommitID := ⟨version, commitInfo.Hash H cistores.1⟩
  ({ rs with db := db2, stores := cistores.2, lastCommitID := commitID }, commitID)

/-! ## Loading and upgrades -/

/-- `Store.getCommitID`: commit id of a store name in the loaded infos map,
zero if absent. -/
def Store.getCommitID (infos : List (String × storeInfo)) (name : String) : CommitID :=
  match assocGet infos name with
  | none => ⟨0, []⟩
  | some info => info.core.commitID

/-- `deleteKVStore`: collect every key, then delete each; the store ends up
empty.  (The source's error return is always nil.) -/
def deleteKVStore (kv : CommitKVStore) : Except String CommitKVStore :=
  Except.ok { kv with contents := [] }

/-- `moveKVStoreData`: copy every pair of the old store into the new store,
then bulk-delete the old store; returns the updated (old, new) pair. -/
def moveKVStoreData (oldS newS : CommitKVStore) : Except String (CommitKVStore × CommitKVStore) :=
  let newS2 := { newS with
    contents := oldS.contents.foldl (fun m p => assocSet m p.1 p.2) newS.contents }
  match deleteKVStore oldS with
  | Except.error e => Except.error e
  | Except.ok oldS2 => Except.ok (oldS2, newS2)

/-- View of a backend restricted to a key prefix, with the prefix stripped:
models `dbm.NewPrefixDB`. -/
def prefixDBView (db : DB) (p : String) : DB :=
  db.filterMap (fun kv =>
    if strStartsWith kv.1 p then some (strDrop kv.1 p.length, kv.2) else none)

/-- The backend view handed to one substore: a prefixed view of the supplied
backend under `s/_/` when one was mounted, else of the multi-store's own
backend under `s/k:<name>/`. -/
def paramsDBView (rs : RootStore) (params : storeParams) : DB :=
  match params.db with
  | some pdb => prefixDBView pdb "s/_/"
  | none => prefixDBView rs.db ("s/k:" ++ params.key.name ++ "/")

/-- `loadCommitStoreFromParams`: instantiate one substore at a commit id.
The versioned tree engine (`iavl.LoadStore`) is external and passed in as
`iavlLoad`, receiving the prefixed backend view and the commit id; an
installed inter-block cache wraps the primary store without changing its
observable state, so the wrap is the identity here. -/
def loadCommitStoreFromParams (iavlLoad : DB → CommitID → Except String CommitKVStore)
    (rs : RootStore) (key : StoreKey) (id : CommitID) (params : storeParams) :
    GoResult CommitKVStore :=
  match params.typ with
  | StoreType.multi => GoResult.panics "recursive MultiStores not yet supported"
  | StoreType.iavl =>
    match iavlLoad (paramsDBView rs params) id with
    | Except.error e => GoResult.err e
    | Except.ok store => GoResult.ok store
  | StoreType.db =>
    GoResult.ok
      { storeType := StoreType.db, lastCommitID := ⟨0, []⟩, nextHash := [],
        contents := (paramsDBView rs params).map (fun p => (strBytes p.1, p.2)),
        commitCount := 0, queryable := false }
  | StoreType.transient =>
    if key.kind ≠ StoreKeyKind.transient then
      GoResult.err ("invalid StoreKey for StoreTypeTransient: " ++ key.name)
    else
      GoResult.ok
        { storeType := StoreType.transient, lastCommitID := ⟨0, []⟩, nextHash := [],
          contents := [], commitCount := 0, queryable := false }

/-- Body of the per-key loop of `loadVersion`: instantiate the substore at
its commit id; if the name is deleted by the manifest, wipe the store; else
if it is the target of a rename, load an auxiliary store under the old name
and move its data over. -/
def loadVersionStore (iavlLoad : DB → CommitID → Except String CommitKVStore)
    (rs : RootStore) (infos : List (String × storeInfo)) (upgrades : Option StoreUpgrades)
    (kp : StoreKey × storeParams) : GoResult (StoreKey × CommitKVStore) :=
  match loadCommitStoreFromParams iavlLoad rs kp.1 (Store.getCommitID infos kp.1.name) kp.2 with
  | GoResult.panics msg => GoResult.panics msg
  | GoResult.err e => GoResult.err ("failed to load Store: " ++ e)
  | GoResult.ok store =>
    if isDeleted upgrades kp.1.name then
      match deleteKVStore store with
      | Except.error e =>
        GoResult.err ("failed to delete store " ++ kp.1.name ++ ": " ++ e)
      | Except.ok store2 => GoResult.ok (kp.1, store2)
    else
      if renamedFrom upgrades kp.1.name ≠ "" then
        match loadCommitStoreFromParams iavlLoad rs
            (NewKVStoreKey 0 (renamedFrom upgrades kp.1.name))
            (Store.getCommitID infos (renamedFrom upgrades kp.1.name))
            { kp.2 with key := NewKVStoreKey 0 (renamedFrom upgrades kp.1.name) } with
        | GoResult.panics msg => GoResult.panics msg
        | GoResult.err e =>
          GoResult.err ("failed to load old Store '" ++ renamedFrom upgrades kp.1.name
            ++ "': " ++ e)
        | GoResult.ok oldStore =>
          match moveKVStoreData oldStore store with
          | Except.error e =>
            GoResult.err ("failed to move store " ++ renamedFrom upgrades kp.1.name
              ++ " -> " ++ kp.1.name ++ ": " ++ e)
          | Except.ok moved => GoResult.ok (kp.1, moved.2)
      else GoResult.ok (kp.1, store)

/-- The per-key loop of `loadVersion`, in iteration order; the first error or
panic aborts the load. -/
def loadStores (f : StoreKey × storeParams → GoResult (StoreKey × CommitKVStore)) :
    List (StoreKey × storeParams) → GoResult (List (StoreKey × CommitKVStore))
  | [] => GoResult.ok []
  | kp :: rest =>
    match f kp with
    | GoResult.err e => GoResult.err e
    | GoResult.panics m => GoResult.panics m
    | GoResult.ok entry =>
      match loadStores f rest with
      | GoResult.err e => GoResult.err e
      | GoResult.panics m => GoResult.panics m
      | GoResult.ok l => GoResult.ok (entry :: l)

/-- First phase of `loadVersion`: for a nonzero version read the commit info,
turn its store-info list into the `name → storeInfo` map and take its commit
id; version 0 skips the read and yields the zero state. -/
def commitInfoPhase (H : Bytes → Bytes) (db : DB) (ver : Int) :
    Except String (List (String × storeInfo) × CommitID) :=
  if ver = 0 then Except.ok ([], ⟨0, []⟩)
  else
    match getCommitInfo db ver with
    | Except.error e => Except.error e
    | Except.ok cInfo =>
      Except.ok (cInfo.storeInfos.foldl (fun m si => assocSet m si.name si) [],
        commitInfo.commitID H cInfo)

/-- `Store.loadVersion`: read the commit info of the requested version, load
every mounted substore (applying the upgrade manifest), and only on success
install the new substore map and last commit id — an error or panic leaves
the multi-store exactly as it was. -/
def Store.loadVersion (H : Bytes → Bytes)
    (iavlLoad : DB → CommitID → Except String CommitKVStore) (rs : RootStore)
    (ver : Int) (upgrades : Option StoreUpgrades) : GoResult RootStore :=
  match commitInfoPhase H rs.db ver with
  | Except.error e => GoResult.err e
  | Except.ok infosCid =>
    match loadStores (loadVersionStore iavlLoad rs infosCid.1 upgrades) rs.storesParams with
    | GoResult.err e => GoResult.err e
    | GoResult.panics m => GoResult.panics m
    | GoResult.ok newStores =>
      GoResult.ok { rs with lastCommitID := infosCid.2, stores := newStores }

/-! ## Store lookup -/

/-- `Store.GetCommitKVStore`: consult the inter-block cache first (unwrapping
through it), then the main substore map; both are keyed by store-key
identity. -/
def Store.GetCommitKVStore (rs : RootStore) (key : StoreKey) : Option CommitKVStore :=
  match rs.interBlockCache with
  | some cache =>
    match assocGet cache key with
    | some store => some store
    | none => assocGet rs.stores key
  | none => assocGet rs.stores key

/-- `Store.GetStore`: panics when no store is mounted under the key. -/
def Store.GetStore (rs : RootStore) (key : StoreKey) : GoResult CommitKVStore :=
  match Store.GetCommitKVStore rs key with
  | none => GoResult.panics ("store does not exist for key: " ++ key.name)
  | some s => GoResult.ok s

/-- `Store.getStoreByName`: resolve a store name through `keysByName`, then
through `GetCommitKVStore`; `none` models the nil store. -/
def Store.getStoreByName (rs : RootStore) (name : String) : Option CommitKVStore :=
  match assocGet rs.keysByName name with
  | none => none
  | some key => Store.GetCommitKVStore rs key

/-! ## Query routing

The request/response envelope and the `sdkerrors` registry are external;
modelled from the spec: routing errors are returned inside the response
envelope (`UnknownRequest`, `InvalidRequest`), never thrown, and
`QueryResult` of a nil error yields the zero (success-shaped) response. -/

/-- Modelled from the spec: an error of the `sdkerrors` registry. -/
structure Err : Type where
  codespace : String
  code : Nat
  msg : String
deriving DecidableEq

def ErrUnknownRequest : Err := ⟨"sdk", 6, "unknown request"⟩

def ErrInvalidRequest : Err := ⟨"sdk", 18, "invalid request"⟩

/-- Modelled from the spec: `sdkerrors.Wrapf` prepends context to the wrapped
error's message and keeps its code. -/
def wrapErr (base : Err) (m : String) : Err :=
  ⟨base.codespace, base.code, m ++ ": " ++ base.msg⟩

/-- Payload of one proof op: opaque substore bytes, or the multi-store op's
store-info list. -/
inductive ProofOpData : Type
  | raw : Bytes → ProofOpData
  | multiStoreInfos : List storeInfo → ProofOpData
deriving DecidableEq

structure ProofOp : Type where
  typ : String
  key : Bytes
  payload : ProofOpData
deriving DecidableEq

/-- Modelled from the spec: `NewMultiStoreProofOp` keyed by the store name,
carrying the full store-info list of the queried height. -/
def multiStoreProofOp (storeName : String) (sis : List storeInfo) : ProofOp :=
  ⟨"multistore", strBytes storeName, ProofOpData.multiStoreInfos sis⟩

structure RequestQuery : Type where
  path : String
  data : Bytes
  height : Int
  prove : Bool
deriving DecidableEq

/-- The abci response envelope; `proofOps = none` models a nil proof. -/
structure ResponseQuery : Type where
  code : Nat
  codespace : String
  log : String
  value : Bytes
  height : Int
  proofOps : Option (List ProofOp)
deriving DecidableEq

/-- Modelled from the spec: `sdkerrors.QueryResult` — a nil error produces the
zero response (code 0, empty log); an error fills code, codespace and log. -/
def queryResult (e : Option Err) : ResponseQuery :=
  match e with
  | none => ⟨0, "", "", [], 0, none⟩
  | some err => ⟨err.code, err.codespace, err.msg, [], 0, none⟩

/-- Split a character list at its first slash. -/
def splitFirstSlash : List Char → Option (List Char × List Char)
  | [] => none
  | c :: rest =>
    if c = '/' then some ([], rest)
    else
      match splitFirstSlash rest with
      | none => none
      | some (a, b) => some (c :: a, b)

/-- `strings.SplitN(s, "/", 2)`: the part before the first separator, and
optionally the rest. -/
def splitN2 (s : String) : String × Option String :=
  match splitFirstSlash s.data with
  | none => (s, none)
  | some (a, b) => (String.mk a, some (String.mk b))

/-- `parsePath`: require a leading `/`; split off the first segment as the
store name and keep the remainder (with its leading `/`) as the subpath. -/
def parsePath (path : String) : Except Err (String × String) :=
  if strStartsWith path "/" = false then
    Except.error (wrapErr ErrUnknownRequest ("invalid path: " ++ path))
  else
    let p2 := splitN2 (strDrop path 1)
    let subpath := match p2.2 with
      | some r => "/" ++ r
      | none => ""
    Except.ok (p2.1, subpath)

/-- Modelled from the spec: the proof-requirement predicate treats paths
ending in `/key` as proof-requiring. -/
def RequireProof (subpath : String) : Bool := strEndsWith subpath "/key"

/-- Proof-augmentation phase of `Store.Query`, entered after the substore
answered `res`: skip unless proof was requested on a proof-requiring subpath;
reject an empty proof as `InvalidRequest`; otherwise read the commit info at
the response's height and append the multi-store proof op.  In the branch
where that read fails, the source builds the result from the stale `err`
variable of `parsePath` — nil at that point — hence `queryResult none`. -/
def queryProofPhase (db : DB) (storeName subpath : String) (req : RequestQuery)
    (res : ResponseQuery) : ResponseQuery :=
  if !req.prove || !RequireProof subpath then res
  else
    match res.proofOps with
    | none =>
      queryResult (some (wrapErr ErrInvalidRequest
        "proof is unexpectedly empty; ensure height has not been pruned"))
    | some ops =>
      if ops.length = 0 then
        queryResult (some (wrapErr ErrInvalidRequest
          "proof is unexpectedly empty; ensure height has not been pruned"))
      else
        match getCommitInfo db res.height with
        | Except.error _ => queryResult none
        | Except.ok cInfo =>
          { res with proofOps := some (ops ++ [multiStoreProofOp storeName cInfo.storeInfos]) }

/-- `Store.Query`: route a query to the named substore (whose queryable
behaviour is the external `subQuery`), trimming the store name off the path,
then run the proof-augmentation phase on the substore's answer. -/
def Store.Query (subQuery : CommitKVStore → RequestQuery → ResponseQuery)
    (rs : RootStore) (req : RequestQuery) : ResponseQuery :=
  match parsePath req.path with
  | Except.error e => queryResult (some e)
  | Except.ok (storeName, subpath) =>
    match Store.getStoreByName rs storeName with
    | none => queryResult (some (wrapErr ErrUnknownRequest ("no such store: " ++ storeName)))
    | some store =>
      if store.queryable = false then
        queryResult (some (wrapErr ErrUnknownRequest
          ("store " ++ storeName ++ " doesn't support queries")))
      else
        queryProofPhase rs.db storeName subpath req
          (subQuery store { req with path := subpath })

/-! ## Snapshot restore -/

/-- A decoded snapshot chunk: store name, version and exported items (each
item modelled as a key/value pair of the exported tree). -/
structure SnapshotChunk : Type where
  store : String
  version : Int
  items : List (Bytes × Bytes)
deriving DecidableEq

/-- Modelled from the spec: the tree engine's `Import(version, items)`
rebuilds the store's contents from the exported items. -/
def iavlImport (s : CommitKVStore) (version : Int) (items : List (Bytes × Bytes)) :
    CommitKVStore :=
  let _ := version
  { s with contents := items }

/-- `Store.Restore`: decode one chunk (`none` models undecodable input),
resolve the target substore by building a brand-new `KVStoreKey` from the
chunk's store name (`freshId` is the fresh allocation identity) and looking
it up via `GetStore` — which panics when the identity-keyed lookup misses —
then import the items and return the simple Merkle root over the current
in-memory substore map, skipping transient stores, with leaves
`H(last_commit_id.hash)`. -/
def Store.Restore (H : Bytes → Bytes) (rs : RootStore) (freshId : Nat)
    (data : Option SnapshotChunk) : GoResult (Bytes × RootStore) :=
  match data with
  | none => GoResult.err "failed to decode chunk"
  | some chunk =>
    let key := NewKVStoreKey freshId chunk.store
    match Store.GetStore rs key with
    | GoResult.panics m => GoResult.panics m
    | GoResult.err e => GoResult.err e
    | GoResult.ok store =>
      if store.storeType ≠ StoreType.iavl then
        GoResult.panics ("interface conversion: not an iavl Store: " ++ chunk.store)
      else
        let store2 := iavlImport store chunk.version chunk.items
        let stores2 := assocSet rs.stores key store2
        let m := stores2.foldl (fun acc p =>
          if p.2.storeType = StoreType.transient then acc
          else assocSet acc p.1.name (H p.2.lastCommitID.hash)) []
        GoResult.ok (SimpleHashFromMap H m, { rs with stores := stores2 })

/-! ## Concrete instances used by witnesses and counterexamples -/

/-- A concrete injective-looking hash stand-in for witness evaluation. -/
def Hc : Bytes → Bytes := fun b => 7 :: b

def kvKeyW : StoreKey := ⟨1, "kv", StoreKeyKind.kv⟩

def memKeyW : StoreKey := ⟨2, "mem", StoreKeyKind.transient⟩

def kvStoreW : CommitKVStore := ⟨StoreType.iavl, ⟨1, [3]⟩, [4], [([1], [2])], 1, true⟩

def memStoreW : CommitKVStore := ⟨StoreType.transient, ⟨0, []⟩, [], [([5], [6])], 1, false⟩

def rsW : RootStore :=
  ⟨[], ⟨0, []⟩, [], [(kvKeyW, kvStoreW), (memKeyW, memStoreW)], [("kv", kvKeyW)], none⟩

def ciW : commitInfo := ⟨1, [⟨"acc", ⟨⟨1, [1]⟩⟩⟩, ⟨"bank", ⟨⟨1, [2]⟩⟩⟩]⟩

def keyB : StoreKey := ⟨1, "B", StoreKeyKind.kv⟩

def paramsB : storeParams := ⟨keyB, none, StoreType.iavl⟩

def rsC6 : RootStore := ⟨[("s/k:A/x", [7])], ⟨0, []⟩, [(keyB, paramsB)], [], [], none⟩

def upC6 : StoreUpgrades := ⟨[⟨"A", "B"⟩], []⟩

/-- A concrete tree-engine loader: the loaded store carries the prefixed
backend view as its contents. -/
def iavlLoadW : DB → CommitID → Except String CommitKVStore :=
  fun db cid =>
    Except.ok ⟨StoreType.iavl, cid, [], db.map (fun p => (strBytes p.1, p.2)), 0, true⟩

/-- A concrete tree-engine loader that always fails. -/
def iavlBadW : DB → CommitID → Except String CommitKVStore :=
  fun _ _ => Except.error "boom"

def newStW : CommitKVStore := ⟨StoreType.iavl, ⟨0, []⟩, [], [], 0, true⟩

def oldStW : CommitKVStore := ⟨StoreType.iavl, ⟨0, []⟩, [], [(strBytes "x", [7])], 0, true⟩

def rs2W : RootStore :=
  ⟨[("s/k:A/x", [7])], ⟨0, []⟩, [(keyB, paramsB)],
    [(keyB, ⟨StoreType.iavl, ⟨0, []⟩, [], [(strBytes "x", [7])], 0, true⟩)], [], none⟩

def resW : ResponseQuery := ⟨0, "", "", [9], 5, some [⟨"iavl:v", [1], ProofOpData.raw [2]⟩]⟩

def subQueryW : CommitKVStore → RequestQuery → ResponseQuery := fun _ _ => resW

def reqW : RequestQuery := ⟨"/kv/key", [1], 0, true⟩

def rsC5 : RootStore := ⟨[], ⟨1, [9]⟩, [], [(kvKeyW, kvStoreW)], [("kv", kvKeyW)], none⟩

def chunkW : SnapshotChunk := ⟨"kv", 1, [([1], [2])]⟩

/-! ## Helper lemmas about the embedding -/

theorem assocGet_set_self {κ α : Type} [DecidableEq κ] (m : List (κ × α)) (k : κ) (v : α) :
    assocGet (assocSet m k v) k = some v := by
  induction m with
  | nil => simp [assocGet, assocSet]
  | cons p rest ih =>
    by_cases h : p.1 = k
    · simp [assocSet, h, assocGet]
    · simp [assocSet, h, assocGet, ih]

theorem assocGet_set_ne {κ α : Type} [DecidableEq κ] (m : List (κ × α)) (k k' : κ) (v : α)
    (h : k' ≠ k) : assocGet (assocSet m k v) k' = assocGet m k' := by
  have hk : k ≠ k' := fun hh => h hh.symm
  induction m with
  | nil => simp [assocGet, assocSet, hk]
  | cons p rest ih =>
    by_cases hp : p.1 = k
    · subst hp
      simp [assocSet, assocGet, hk]
    · simp only [assocSet, hp, if_false]
      by_cases hp' : p.1 = k'
      · simp [assocGet, hp']
      · simp [assocGet, hp', ih]

theorem assocGet_append {κ α : Type} [DecidableEq κ] (m₁ m₂ : List (κ × α)) (k : κ) :
    assocGet (m₁ ++ m₂) k =
      match assocGet m₁ k with
      | some v => some v
      | none => assocGet m₂ k := by
  induction m₁ with
  | nil => simp [assocGet]
  | cons p rest ih =>
    by_cases h : p.1 = k
    · simp [assocGet, h]
    · simp [assocGet, h, ih]

theorem assocSet_eq_append_of_get_none {κ α : Type} [DecidableEq κ]
    (m : List (κ × α)) (k : κ) (v : α) (h : assocGet m k = none) :
    assocSet m k v = m ++ [(k, v)] := by
  induction m with
  | nil => simp [assocSet]
  | cons p rest ih =>
    by_cases hp : p.1 = k
    · simp [assocGet, hp] at h
    · simp [assocGet, hp] at h
      simp [assocSet, hp, ih h]

/-- Inserting an association list with pairwise-distinct keys, none of which is
already present, appends it unchanged.  This is how the Go pattern
`for _, x := range l ... m[key(x)] = value(x)` relates to the list it ranges
over. -/
theorem foldl_assocSet_of_nodup {κ α : Type} [DecidableEq κ]
    (l m : List (κ × α)) (hdisj : ∀ p ∈ l, assocGet m p.1 = none)
    (hnd : (l.map Prod.fst).Nodup) :
    l.foldl (fun acc p => assocSet acc p.1 p.2) m = m ++ l := by
  induction l generalizing m with
  | nil => simp
  | cons p rest ih =>
    have hset : assocSet m p.1 p.2 = m ++ [(p.1, p.2)] :=
      assocSet_eq_append_of_get_none m p.1 p.2 (hdisj p (by simp))
    simp only [List.foldl_cons, hset]
    simp only [List.map_cons, List.nodup_cons] at hnd
    have hdisj' : ∀ q ∈ rest, assocGet (m ++ [(p.1, p.2)]) q.1 = none := by
      intro q hq
      rw [assocGet_append]
      have h1 : assocGet m q.1 = none := hdisj q (by simp [hq])
      have h2 : q.1 ≠ p.1 := by
        intro he
        exact hnd.1 (he ▸ List.mem_map_of_mem Prod.fst hq)
      simp [h1, assocGet, h2.symm]
    rw [ih (m ++ [(p.1, p.2)]) hdisj' hnd.2, List.append_assoc]
    rfl

theorem assocGet_eq_none_of_forall_ne {κ α : Type} [DecidableEq κ]
    (m : List (κ × α)) (k : κ) (h : ∀ p ∈ m, p.1 ≠ k) : assocGet m k = none := by
  induction m with
  | nil => rfl
  | cons p rest ih =>
    simp [assocGet, h p (by simp), ih (fun q hq => h q (by simp [hq]))]

theorem leToNat_natLE (n : Nat) : leToNat (natLE n) = n := by
  induction n using Nat.strong_induction_on with
  | _ n ih =>
    match n with
    | 0 => simp [natLE, leToNat]
    | Nat.succ m =>
      rw [natLE]
      show (m + 1) % 256 + 256 * leToNat (natLE ((m + 1) / 256)) = m + 1
      rw [ih ((m + 1) / 256) (Nat.div_lt_self (Nat.succ_pos m) (by decide))]
      omega

theorem decodeInt64_encodeInt64 (v : Int) (h0 : 0 ≤ v) (h1 : v < (2 : Int) ^ 64) :
    decodeInt64 (encodeInt64 v) = Except.ok v := by
  have hmod : v % ((2 : Int) ^ 64) = v := Int.emod_eq_of_lt h0 h1
  simp only [decodeInt64, encodeInt64, encodeBytesLP, readLP, List.take_length,
    List.drop_length, hmod]
  simp [leToNat_natLE, Int.toNat_of_nonneg h0]

theorem commit_storeType (s : CommitKVStore) :
    (CommitKVStore.commit s).1.storeType = s.storeType := by
  unfold CommitKVStore.commit
  by_cases h : s.storeType = StoreType.transient <;>
    by_cases h2 : s.storeType = StoreType.db <;> simp [h, h2]

/-! ## Claim theorems -/

/-- C1: for every `CommitInfo` (with the names pairwise distinct, as mounting
guarantees), the multi-store root hash equals the simple Merkle root over the
map from store name to `H(commit_id.hash)`, sorted by name, each leaf being
the canonical hash applied exactly once to the substore's commit-id hash —
not the raw commit-id hash itself. -/
theorem commitInfo_hash_is_merkle_of_single_hashed_leaves (H : Bytes → Bytes)
    (ci : commitInfo) (hnd : (ci.storeInfos.map storeInfo.name).Nodup) :
    commitInfo.Hash H ci =
      SimpleHashFromMap H
        (ci.storeInfos.map (fun si => (si.name, H si.core.commitID.hash))) := by
  unfold commitInfo.Hash
  have hfold :
      ci.storeInfos.foldl (fun m si => assocSet m si.name (storeInfo.Hash H si)) [] =
        (ci.storeInfos.map (fun si => (si.name, storeInfo.Hash H si))).foldl
          (fun m p => assocSet m p.1 p.2) [] := by
    rw [List.foldl_map]
  rw [hfold,
    foldl_assocSet_of_nodup
      (ci.storeInfos.map (fun si => (si.name, storeInfo.Hash H si))) []
      (fun p _ => rfl) (by rw [List.map_map]; exact hnd)]
  simp [storeInfo.Hash]

/-- Witness for C1 at a concrete two-store commit info. -/
theorem commitInfo_hash_witness :
    (ciW.storeInfos.map storeInfo.name).Nodup ∧
    commitInfo.Hash Hc ciW =
      SimpleHashFromMap Hc
        (ciW.storeInfos.map (fun si => (si.name, Hc si.core.commitID.hash))) :=
  ⟨by decide, commitInfo_hash_is_merkle_of_single_hashed_leaves Hc ciW (by decide)⟩

/-- C2: a successful `Commit()` advances `last_commit_id.version` to the
pre-commit version plus one, issues exactly the `s/<new_version>` commit-info
write and the `s/latest` pointer write in one atomic batch (both readable
afterwards, every other key untouched), and returns
`CommitID(new_version, hash of the assembled CommitInfo)`. -/
theorem commit_advances_version_atomically (H : Bytes → Bytes) (rs : RootStore) :
    (Store.Commit H rs).2.version = rs.lastCommitID.version + 1
    ∧ (Store.Commit H rs).1.lastCommitID = (Store.Commit H rs).2
    ∧ (Store.Commit H rs).2.hash =
        commitInfo.Hash H (commitStores (rs.lastCommitID.version + 1) rs.stores).1
    ∧ (Store.Commit H rs).1.db =
        applyBatch rs.db
          (setLatestVersion
            (setCommitInfo [] (rs.lastCommitID.version + 1)
              (commitStores (rs.lastCommitID.version + 1) rs.stores).1)
            (rs.lastCommitID.version + 1))
    ∧ dbGet (Store.Commit H rs).1.db latestVersionKey =
        some (encodeInt64 (rs.lastCommitID.version + 1))
    ∧ (commitInfoKey (rs.lastCommitID.version + 1) ≠ latestVersionKey →
        dbGet (Store.Commit H rs).1.db (commitInfoKey (rs.lastCommitID.version + 1)) =
          some (encodeCommitInfo (commitStores (rs.lastCommitID.version + 1) rs.stores).1))
    ∧ (∀ k, k ≠ latestVersionKey → k ≠ commitInfoKey (rs.lastCommitID.version + 1) →
        dbGet (Store.Commit H rs).1.db k = dbGet rs.db k) := by
  have hdb : (Store.Commit H rs).1.db =
      assocSet
        (assocSet rs.db (commitInfoKey (rs.lastCommitID.version + 1))
          (encodeCommitInfo (commitStores (rs.lastCommitID.version + 1) rs.stores).1))
        latestVersionKey (encodeInt64 (rs.lastCommitID.version + 1)) := rfl
  refine ⟨rfl, rfl, rfl, rfl, ?_, ?_, ?_⟩
  · rw [hdb]
    exact assocGet_set_self _ _ _
  · intro hne
    rw [hdb]
    simp only [dbGet]
    rw [assocGet_set_ne _ _ _ _ hne]
    exact assocGet_set_self _ _ _
  · intro k hk1 hk2
    rw [hdb]
    simp only [dbGet]
    rw [assocGet_set_ne _ _ _ _ hk1, assocGet_set_ne _ _ _ _ hk2]

/-- Witness for C2 at a concrete store, exercising the key-distinctness
hypothesis of the commit-info read-back conjunct. -/
theorem commit_advances_version_atomically_witness :
    dbGet (Store.Commit Hc rsW).1.db (commitInfoKey (rsW.lastCommitID.version + 1)) =
      some (encodeCommitInfo (commitStores (rsW.lastCommitID.version + 1) rsW.stores).1) :=
  (commit_advances_version_atomically Hc rsW).2.2.2.2.2.1 (by decide)

/-- C3: `commitStores` invokes `commit()` on every mounted transient substore
(clearing its contents and bumping its commit count in the returned map), yet
records no `storeInfo` for it, so no transient store name ever reaches the
persisted store-info list (nor, therefore, the root hash computed from it). -/
theorem commitStores_transient_cleared_and_excluded (version : Int)
    (sm : List (StoreKey × CommitKVStore))
    (hnd : (sm.map (fun p => p.1.name)).Nodup) :
    (∀ p ∈ sm, p.2.storeType = StoreType.transient →
        (p.1, (CommitKVStore.commit p.2).1) ∈ (commitStores version sm).2
        ∧ (CommitKVStore.commit p.2).1.contents = []
        ∧ (CommitKVStore.commit p.2).1.commitCount = p.2.commitCount + 1)
    ∧ (∀ si ∈ (commitStores version sm).1.storeInfos,
        ∀ p ∈ sm, p.2.storeType = StoreType.transient → si.name ≠ p.1.name) := by
  constructor
  · intro p hp ht
    refine ⟨?_, ?_, ?_⟩
    · simp only [commitStores, List.map_map]
      exact List.mem_map_of_mem _ hp
    · simp [CommitKVStore.commit, ht]
    · simp [CommitKVStore.commit, ht]
  · intro si hsi p hp ht hname
    simp only [commitStores, List.mem_filterMap, List.mem_map] at hsi
    obtain ⟨a, ⟨q, hq, ha⟩, hfa⟩ := hsi
    subst ha
    by_cases hqt : (CommitKVStore.commit q.2).1.storeType = StoreType.transient
    · simp [hqt] at hfa
    · simp only [hqt, if_false, Option.some.injEq] at hfa
      have hqname : si.name = q.1.name := by rw [← hfa]
      have hq_ne_p : q ≠ p := by
        intro he
        rw [commit_storeType] at hqt
        rw [he] at hqt
        exact hqt ht
      have : q = p :=
        List.inj_on_of_nodup_map hnd hq hp (by rw [← hqname, hname])
      exact hq_ne_p this

/-- Witness for C3 at a concrete map with one versioned and one transient
substore. -/
theorem commitStores_transient_witness :
    ((rsW.stores.map (fun p => p.1.name)).Nodup)
    ∧ (∀ si ∈ (commitStores 1 rsW.stores).1.storeInfos,
        ∀ p ∈ rsW.stores, p.2.storeType = StoreType.transient → si.name ≠ p.1.name) :=
  ⟨by decide, (commitStores_transient_cleared_and_excluded 1 rsW.stores (by decide)).2⟩

/-- C8: immediately after a successful `Commit()`, the value stored under
`s/latest` decodes back to exactly `last_commit_id.version` — encoding
followed by decoding of the version integer is the identity. -/
theorem latest_version_roundtrip_after_commit (H : Bytes → Bytes) (rs : RootStore)
    (h0 : 0 ≤ rs.lastCommitID.version + 1)
    (h1 : rs.lastCommitID.version + 1 < (2 : Int) ^ 64) :
    getLatestVersion (Store.Commit H rs).1.db =
      GoResult.ok (Store.Commit H rs).1.lastCommitID.version := by
  have hdb : (Store.Commit H rs).1.db =
      assocSet
        (assocSet rs.db (commitInfoKey (rs.lastCommitID.version + 1))
          (encodeCommitInfo (commitStores (rs.lastCommitID.version + 1) rs.stores).1))
        latestVersionKey (encodeInt64 (rs.lastCommitID.version + 1)) := rfl
  have hget : dbGet (Store.Commit H rs).1.db latestVersionKey =
      some (encodeInt64 (rs.lastCommitID.version + 1)) := by
    rw [hdb]
    exact assocGet_set_self _ _ _
  have hlast : (Store.Commit H rs).1.lastCommitID.version = rs.lastCommitID.version + 1 := rfl
  rw [hlast]
  unfold getLatestVersion
  rw [hget]
  simp [decodeInt64_encodeInt64 _ h0 h1]

/-- Witness for C8 at a concrete store committing from version 0 to 1. -/
theorem latest_version_roundtrip_witness :
    getLatestVersion (Store.Commit Hc rsW).1.db =
      GoResult.ok (Store.Commit Hc rsW).1.lastCommitID.version :=
  latest_version_roundtrip_after_commit Hc rsW (by decide) (by decide)

/-- Only a `multi`-typed mount makes substore instantiation panic. -/
theorem loadCommitStoreFromParams_panics_imp
    (iavlLoad : DB → CommitID → Except String CommitKVStore) (rs : RootStore)
    (key : StoreKey) (id : CommitID) (params : storeParams) (m : String)
    (h : loadCommitStoreFromParams iavlLoad rs key id params = GoResult.panics m) :
    params.typ = StoreType.multi := by
  unfold loadCommitStoreFromParams at h
  split at h
  · rename_i heq
    exact heq
  · split at h <;> exact absurd h (by simp)
  · exact absurd h (by simp)
  · split at h <;> exact absurd h (by simp)

set_option maxHeartbeats 1600000 in
/-- Only a `multi`-typed mount makes the per-key load-loop body panic. -/
theorem loadVersionStore_panics_imp
    (iavlLoad : DB → CommitID → Except String CommitKVStore) (rs : RootStore)
    (infos : List (String × storeInfo)) (upgrades : Option StoreUpgrades)
    (kp : StoreKey × storeParams) (m : String)
    (h : loadVersionStore iavlLoad rs infos upgrades kp = GoResult.panics m) :
    kp.2.typ = StoreType.multi := by
  unfold loadVersionStore at h
  split at h
  · rename_i heq
    exact loadCommitStoreFromParams_panics_imp _ _ _ _ _ _ heq
  · exact absurd h (by simp)
  · split at h
    · split at h
      · rename_i heq
        exact absurd heq (by simp [deleteKVStore])
      · exact absurd h (by simp)
    · split at h
      · split at h
        · rename_i heq
          exact loadCommitStoreFromParams_panics_imp _ _ _ _
            { kp.2 with key := NewKVStoreKey 0 (renamedFrom upgrades kp.1.name) } _ heq
        · exact absurd h (by simp)
        · split at h
          · rename_i heq
            exact absurd heq (by simp [moveKVStoreData, deleteKVStore])
          · exact absurd h (by simp)
      · exact absurd h (by simp)

/-- A member whose body call errs forces the whole load loop to err, provided
no member panics. -/
theorem loadStores_err_of_mem
    (f : StoreKey × storeParams → GoResult (StoreKey × CommitKVStore))
    (ps : List (StoreKey × storeParams)) (kp : StoreKey × storeParams) (e : String)
    (hnp : ∀ q ∈ ps, ∀ m, f q ≠ GoResult.panics m)
    (hkp : kp ∈ ps) (hf : f kp = GoResult.err e) :
    ∃ e2, loadStores f ps = GoResult.err e2 := by
  induction ps with
  | nil => cases hkp
  | cons p rest ih =>
    rcases List.mem_cons.mp hkp with h | h
    · subst h
      exact ⟨e, by simp [loadStores, hf]⟩
    · cases hfp : f p with
      | ok entry =>
        obtain ⟨e2, h2⟩ := ih (fun q hq => hnp q (List.mem_cons_of_mem p hq)) h
        exact ⟨e2, by simp [loadStores, hfp, h2]⟩
      | err e3 => exact ⟨e3, by simp [loadStores, hfp]⟩
      | panics m => exact absurd hfp (hnp p (by simp) m)

/-- When the load loop succeeds, the body's result for every member is in the
new substore list. -/
theorem loadStores_mem_ok
    (f : StoreKey × storeParams → GoResult (StoreKey × CommitKVStore))
    (ps : List (StoreKey × storeParams)) (l : List (StoreKey × CommitKVStore))
    (h : loadStores f ps = GoResult.ok l)
    (kp : StoreKey × storeParams) (hkp : kp ∈ ps)
    (r : StoreKey × CommitKVStore) (hr : f kp = GoResult.ok r) : r ∈ l := by
  induction ps generalizing l with
  | nil => cases hkp
  | cons p rest ih =>
    unfold loadStores at h
    cases hfp : f p with
    | err e => rw [hfp] at h; exact absurd h (by simp)
    | panics m => rw [hfp] at h; exact absurd h (by simp)
    | ok entry =>
      rw [hfp] at h
      cases hrest : loadStores f rest with
      | err e => rw [hrest] at h; exact absurd h (by simp)
      | panics m => rw [hrest] at h; exact absurd h (by simp)
      | ok l2 =>
        rw [hrest] at h
        have hl : l = entry :: l2 := by
          cases h
          rfl
        subst hl
        rcases List.mem_cons.mp hkp with hh | hh
        · subst hh
          rw [hfp] at hr
          cases hr
          exact List.mem_cons_self _ _
        · exact List.mem_cons_of_mem _ (ih l2 hrest hh)

/-- C4: loading a nonzero version returns the commit-info read/decode error
unchanged to the caller, and any substore instantiation failure aborts the
load with an error; in either case no new multi-store state is produced — in
this embedding an erring `loadVersion` yields no store, so the live substore
map and `last_commit_id` stay exactly as they were. -/
theorem loadVersion_error_cases (H : Bytes → Bytes)
    (iavlLoad : DB → CommitID → Except String CommitKVStore) (rs : RootStore)
    (ver : Int) (up : Option StoreUpgrades) :
    (∀ e, ver ≠ 0 → getCommitInfo rs.db ver = Except.error e →
        Store.loadVersion H iavlLoad rs ver up = GoResult.err e)
    ∧ (∀ infos lcid kp e2,
        commitInfoPhase H rs.db ver = Except.ok (infos, lcid) →
        kp ∈ rs.storesParams →
        (∀ q ∈ rs.storesParams, q.2.typ ≠ StoreType.multi) →
        loadCommitStoreFromParams iavlLoad rs kp.1 (Store.getCommitID infos kp.1.name) kp.2 =
          GoResult.err e2 →
        ∃ e3, Store.loadVersion H iavlLoad rs ver up = GoResult.err e3) := by
  constructor
  · intro e hver hci
    simp [Store.loadVersion, commitInfoPhase, hver, hci]
  · intro infos lcid kp e2 hphase hkp hmulti hload
    have hbody : loadVersionStore iavlLoad rs infos up kp =
        GoResult.err ("failed to load Store: " ++ e2) := by
      simp [loadVersionStore, hload]
    have hnp : ∀ q ∈ rs.storesParams, ∀ m,
        loadVersionStore iavlLoad rs infos up q ≠ GoResult.panics m := by
      intro q hq m hpan
      exact hmulti q hq (loadVersionStore_panics_imp _ _ _ _ _ _ hpan)
    obtain ⟨e3, h3⟩ := loadStores_err_of_mem _ _ kp _ hnp hkp hbody
    refine ⟨e3, ?_⟩
    simp [Store.loadVersion, hphase, h3]

/-- Witness for C4: a missing commit-info record surfaces its error, and a
failing substore instantiation aborts the load with an error. -/
theorem loadVersion_error_witness :
    (Store.loadVersion Hc iavlLoadW rsW 1 none =
      GoResult.err "failed to get commit info: no data")
    ∧ ∃ e3, Store.loadVersion Hc iavlBadW rsC6 0 none = GoResult.err e3 :=
  ⟨(loadVersion_error_cases Hc iavlLoadW rsW 1 none).1
      "failed to get commit info: no data" (by decide) rfl,
   (loadVersion_error_cases Hc iavlBadW rsC6 0 none).2 [] ⟨0, []⟩ (keyB, paramsB) "boom"
      rfl (by decide) (by decide) rfl⟩

/-- C6: loading with a rename `oldName → key.name` instantiates an auxiliary
substore at the old name's commit id, copies every `(k, v)` pair into the
substore mounted under the new name and then deletes every key of the old
substore: when the newly instantiated store starts empty (the new name being
absent from the loaded commit info) and the load succeeds, the mounted new
store's contents equal the old store's pre-rename contents and the moved-out
old store is empty. -/
theorem loadVersion_rename_moves_data (H : Bytes → Bytes)
    (iavlLoad : DB → CommitID → Except String CommitKVStore) (rs : RootStore)
    (ver : Int) (up : StoreUpgrades) (rs2 : RootStore) (key : StoreKey)
    (params : storeParams) (infos : List (String × storeInfo)) (lcid : CommitID)
    (newSt oldSt : CommitKVStore)
    (hphase : commitInfoPhase H rs.db ver = Except.ok (infos, lcid))
    (hok : Store.loadVersion H iavlLoad rs ver (some up) = GoResult.ok rs2)
    (hkp : (key, params) ∈ rs.storesParams)
    (hdel : isDeleted (some up) key.name = false)
    (hne : renamedFrom (some up) key.name ≠ "")
    (hnew : loadCommitStoreFromParams iavlLoad rs key (Store.getCommitID infos key.name)
        params = GoResult.ok newSt)
    (hempty : newSt.contents = [])
    (hold : loadCommitStoreFromParams iavlLoad rs
        (NewKVStoreKey 0 (renamedFrom (some up) key.name))
        (Store.getCommitID infos (renamedFrom (some up) key.name))
        { params with key := NewKVStoreKey 0 (renamedFrom (some up) key.name) } =
        GoResult.ok oldSt)
    (hnd : (oldSt.contents.map Prod.fst).Nodup) :
    ∃ oldSt2 newSt2,
      moveKVStoreData oldSt newSt = Except.ok (oldSt2, newSt2)
      ∧ oldSt2.contents = []
      ∧ newSt2.contents = oldSt.contents
      ∧ (key, newSt2) ∈ rs2.stores := by
  have hmovedContents :
      oldSt.contents.foldl (fun m p => assocSet m p.1 p.2) newSt.contents =
        oldSt.contents := by
    rw [hempty]
    have := foldl_assocSet_of_nodup oldSt.contents [] (fun p _ => rfl) hnd
    simpa using this
  have hmove : moveKVStoreData oldSt newSt =
      Except.ok ({ oldSt with contents := [] }, { newSt with contents := oldSt.contents }) := by
    simp [moveKVStoreData, deleteKVStore, hmovedContents]
  refine ⟨{ oldSt with contents := [] }, { newSt with contents := oldSt.contents },
    hmove, rfl, rfl, ?_⟩
  have hbody : loadVersionStore iavlLoad rs infos (some up) (key, params) =
      GoResult.ok (key, { newSt with contents := oldSt.contents }) := by
    unfold loadVersionStore
    rw [hnew]
    simp only [hdel, Bool.false_eq_true, if_false]
    rw [if_pos hne]
    simp only [hold, hmove]
  unfold Store.loadVersion at hok
  simp only [hphase] at hok
  cases hls : loadStores (loadVersionStore iavlLoad rs infos (some up)) rs.storesParams with
  | err e => rw [hls] at hok; exact absurd hok (by simp)
  | panics m => rw [hls] at hok; exact absurd hok (by simp)
  | ok newStores =>
    rw [hls] at hok
    have hstores : rs2.stores = newStores := by
      cases hok
      rfl
    rw [hstores]
    exact loadStores_mem_ok _ _ _ hls (key, params) hkp _ hbody

/-- Witness for C6: a concrete rename `A → B` at version 0 moves the single
pair of `A` into the freshly mounted empty `B`. -/
theorem loadVersion_rename_witness :
    ∃ oldSt2 newSt2,
      moveKVStoreData oldStW newStW = Except.ok (oldSt2, newSt2)
      ∧ oldSt2.contents = []
      ∧ newSt2.contents = oldStW.contents
      ∧ (keyB, newSt2) ∈ rs2W.stores :=
  loadVersion_rename_moves_data Hc iavlLoadW rsC6 0 upC6 rs2W keyB paramsB [] ⟨0, []⟩
    newStW oldStW rfl (by decide) (by decide) (by decide) (by decide) (by decide)
    (by decide) (by decide) (by decide)

/-- C7: a query whose path lacks the leading `/` is answered with an
`UnknownRequest` error result, and a query whose first path segment names no
mounted store is answered with an `UnknownRequest` ("no such store") error
result; both are ordinary responses of the total routing function — neither
branch panics. -/
theorem query_routing_unknown_request
    (subQuery : CommitKVStore → RequestQuery → ResponseQuery)
    (rs : RootStore) (req : RequestQuery) :
    (strStartsWith req.path "/" = false →
        Store.Query subQuery rs req =
          queryResult (some (wrapErr ErrUnknownRequest ("invalid path: " ++ req.path))))
    ∧ (∀ storeName rest,
        strStartsWith req.path "/" = true →
        splitN2 (strDrop req.path 1) = (storeName, rest) →
        assocGet rs.keysByName storeName = none →
        Store.Query subQuery rs req =
          queryResult (some (wrapErr ErrUnknownRequest ("no such store: " ++ storeName)))) := by
  constructor
  · intro h
    simp [Store.Query, parsePath, h]
  · intro storeName rest h1 h2 h3
    simp [Store.Query, parsePath, h1, h2, Store.getStoreByName, h3]

/-- Witness for C7: a slash-less path and an unmounted store name both produce
`UnknownRequest` responses on a concrete store. -/
theorem query_routing_unknown_request_witness :
    (Store.Query subQueryW rsW ⟨"abc", [], 0, false⟩ =
      queryResult (some (wrapErr ErrUnknownRequest "invalid path: abc")))
    ∧ (Store.Query subQueryW rsW ⟨"/nope", [], 0, false⟩ =
      queryResult (some (wrapErr ErrUnknownRequest "no such store: nope"))) :=
  ⟨(query_routing_unknown_request subQueryW rsW ⟨"abc", [], 0, false⟩).1 (by decide),
   (query_routing_unknown_request subQueryW rsW ⟨"/nope", [], 0, false⟩).2
     "nope" none (by decide) (by decide) (by decide)⟩

/-- C10: when proof is requested on a proof-requiring subpath, the substore
returns a non-empty proof, and the commit-info read at the response's height
fails, `Query` builds its result from the stale path-parse error variable —
nil at that point — so it returns the zero (success-shaped) response and the
commit-info lookup failure is never reported to the caller. -/
theorem query_commit_info_error_swallowed
    (subQuery : CommitKVStore → RequestQuery → ResponseQuery)
    (rs : RootStore) (req : RequestQuery) (storeName subpath : String)
    (store : CommitKVStore) (res : ResponseQuery) (ops : List ProofOp) (e : String)
    (hparse : parsePath req.path = Except.ok (storeName, subpath))
    (hstore : Store.getStoreByName rs storeName = some store)
    (hq : store.queryable = true)
    (hprove : req.prove = true)
    (hrp : RequireProof subpath = true)
    (hres : subQuery store { req with path := subpath } = res)
    (hops : res.proofOps = some ops)
    (hopsne : ops ≠ [])
    (hci : getCommitInfo rs.db res.height = Except.error e) :
    Store.Query subQuery rs req = queryResult none := by
  have h1 : Store.Query subQuery rs req =
      queryProofPhase rs.db storeName subpath req
        (subQuery store { req with path := subpath }) := by
    simp [Store.Query, hparse, hstore, hq]
  rw [h1, hres]
  simp only [queryProofPhase, hprove, hrp, Bool.not_true, Bool.or_self, Bool.false_eq_true,
    if_false, hops]
  rw [if_neg (by simp [hopsne])]
  simp only [hci]

/-- Witness for C10: a concrete proved query over `kv` whose commit-info read
at height 5 fails yields the success-shaped empty result. -/
theorem query_commit_info_error_swallowed_witness :
    Store.Query subQueryW rsW reqW = queryResult none :=
  query_commit_info_error_swallowed subQueryW rsW reqW "kv" "/key" kvStoreW resW
    [⟨"iavl:v", [1], ProofOpData.raw [2]⟩] "failed to get commit info: no data"
    rfl (by decide) (by decide) (by decide) (by decide) rfl (by decide)
    (by decide) rfl

/-- C9: `Restore` resolves the target substore by building a brand-new
`KVStoreKey` from the chunk's store name; since the substore map (and the
inter-block cache) are keyed by key identity, a fresh key matches nothing
mounted, so `GetStore` panics instead of importing the chunk. -/
theorem restore_panics_on_fresh_key (H : Bytes → Bytes) (rs : RootStore)
    (freshId : Nat) (chunk : SnapshotChunk)
    (hStores : ∀ p ∈ rs.stores, p.1.id ≠ freshId)
    (hCache : ∀ c, rs.interBlockCache = some c → ∀ p ∈ c, p.1.id ≠ freshId) :
    Store.Restore H rs freshId (some chunk) =
      GoResult.panics ("store does not exist for key: " ++ chunk.store) := by
  have hkey : ∀ p ∈ rs.stores, p.1 ≠ NewKVStoreKey freshId chunk.store := by
    intro p hp he
    exact hStores p hp (by rw [he]; rfl)
  have hnone : assocGet rs.stores (NewKVStoreKey freshId chunk.store) = none :=
    assocGet_eq_none_of_forall_ne _ _ hkey
  have hGet : Store.GetCommitKVStore rs (NewKVStoreKey freshId chunk.store) = none := by
    unfold Store.GetCommitKVStore
    cases hc : rs.interBlockCache with
    | none => exact hnone
    | some c =>
      have hcnone : assocGet c (NewKVStoreKey freshId chunk.store) = none :=
        assocGet_eq_none_of_forall_ne _ _
          (fun p hp he => hCache c hc p hp (by rw [he]; rfl))
      simp [hcnone, hnone]
  simp only [Store.Restore, Store.GetStore, hGet]
  rfl

/-- Witness for C9 at a concrete mounted store and fresh key identity 99. -/
theorem restore_panics_on_fresh_key_witness :
    Store.Restore Hc rsW 99 (some chunkW) =
      GoResult.panics ("store does not exist for key: " ++ chunkW.store) :=
  restore_panics_on_fresh_key Hc rsW 99 chunkW (by decide)
    (fun c hc => absurd hc (by simp [rsW]))

/-- C5 (code evaluation at the failing input): on a multi-store with the
substore `kv` mounted under its own key, `Restore` of a decodable chunk
naming `kv` panics in `GetStore` — the brand-new `KVStoreKey` misses the
identity-keyed map — so the chunk is never imported and no root hash is
returned, contradicting the claimed restore behaviour. -/
theorem restore_never_imports_concrete :
    Store.Restore Hc rsC5 2 (some chunkW) =
      GoResult.panics "store does not exist for key: kv" := by decide
